import Mathlib

/-!
Verification development for the syntax-tree extraction and serialization
pipeline (`src/scripts/extract_python_ast.py`) and the dataset extractor
(`src/scripts/extract_codenet_data.py`).

The Python code is shallowly embedded: bytes are `List Nat` (each < 256),
strings are Lean `String`s, fallible operations return `Option`/`Except`,
and the filesystem is an explicit map from path strings to optional byte
contents.
-/

/-! ## UTF-8 codec

`bytes.decode("utf-8")` in Python uses strict error handling by default:
any malformed byte sequence raises `UnicodeDecodeError`.  `utf8DecodeStrict`
models it, returning `none` where Python raises.  `utf8DecodeReplace`
models `errors="replace"`: each maximal subpart of an ill-formed sequence
becomes one U+FFFD replacement character. -/

/-- Is `b` a UTF-8 continuation byte (`0x80..0xBF`)? -/
def isCont (b : Nat) : Bool := 0x80 ≤ b && b < 0xC0

/-- Lower bound for the second byte of a multi-byte sequence headed by `b`. -/
def lo2 (b : Nat) : Nat := if b = 0xE0 then 0xA0 else if b = 0xF0 then 0x90 else 0x80

/-- Upper bound for the second byte of a multi-byte sequence headed by `b`. -/
def hi2 (b : Nat) : Nat := if b = 0xED then 0x9F else if b = 0xF4 then 0x8F else 0xBF

/-- Strict UTF-8 decoding (`bytes.decode("utf-8")`, default `errors="strict"`):
`none` models a raised `UnicodeDecodeError`. -/
def utf8DecodeStrict : List Nat → Option (List Char)
  | [] => some []
  | b :: rest =>
    if b < 0x80 then
      (utf8DecodeStrict rest).map (fun cs => Char.ofNat b :: cs)
    else if b < 0xC2 then none
    else if b < 0xE0 then
      match rest with
      | b2 :: rest2 =>
        if isCont b2 then
          (utf8DecodeStrict rest2).map
            (fun cs => Char.ofNat ((b - 0xC0) * 0x40 + (b2 - 0x80)) :: cs)
        else none
      | [] => none
    else if b < 0xF0 then
      match rest with
      | b2 :: b3 :: rest3 =>
        if lo2 b ≤ b2 && b2 ≤ hi2 b && isCont b3 then
          (utf8DecodeStrict rest3).map
            (fun cs => Char.ofNat ((b - 0xE0) * 0x1000 + (b2 - 0x80) * 0x40 + (b3 - 0x80)) :: cs)
        else none
      | _ => none
    else if b < 0xF5 then
      match rest with
      | b2 :: b3 :: b4 :: rest4 =>
        if lo2 b ≤ b2 && b2 ≤ hi2 b && isCont b3 && isCont b4 then
          (utf8DecodeStrict rest4).map
            (fun cs => Char.ofNat ((b - 0xF0) * 0x40000 + (b2 - 0x80) * 0x1000
                        + (b3 - 0x80) * 0x40 + (b4 - 0x80)) :: cs)
        else none
      | _ => none
    else none

/-- The U+FFFD replacement character. -/
def replChar : Char := Char.ofNat 0xFFFD

/-- Fuel-driven worker for lossy UTF-8 decoding; `fuel` bounds the number of
decoding steps and is immaterial whenever `fuel ≥ l.length` (each step
consumes at least one byte). -/
def utf8DecodeReplaceGo : Nat → List Nat → List Char
  | 0, _ => []
  | _ + 1, [] => []
  | _ + 1, [b] => if b < 0x80 then [Char.ofNat b] else [replChar]
  | fuel + 1, b :: b2 :: rest =>
    if b < 0x80 then Char.ofNat b :: utf8DecodeReplaceGo fuel (b2 :: rest)
    else if b < 0xC2 then replChar :: utf8DecodeReplaceGo fuel (b2 :: rest)
    else if b < 0xE0 then
      if isCont b2 then
        Char.ofNat ((b - 0xC0) * 0x40 + (b2 - 0x80)) :: utf8DecodeReplaceGo fuel rest
      else replChar :: utf8DecodeReplaceGo fuel (b2 :: rest)
    else if b < 0xF0 then
      if lo2 b ≤ b2 && b2 ≤ hi2 b then
        match rest with
        | b3 :: rest2 =>
          if isCont b3 then
            Char.ofNat ((b - 0xE0) * 0x1000 + (b2 - 0x80) * 0x40 + (b3 - 0x80))
              :: utf8DecodeReplaceGo fuel rest2
          else replChar :: utf8DecodeReplaceGo fuel (b3 :: rest2)
        | [] => [replChar]
      else replChar :: utf8DecodeReplaceGo fuel (b2 :: rest)
    else if b < 0xF5 then
      if lo2 b ≤ b2 && b2 ≤ hi2 b then
        match rest with
        | b3 :: rest2 =>
          if isCont b3 then
            match rest2 with
            | b4 :: rest3 =>
              if isCont b4 then
                Char.ofNat ((b - 0xF0) * 0x40000 + (b2 - 0x80) * 0x1000
                  + (b3 - 0x80) * 0x40 + (b4 - 0x80)) :: utf8DecodeReplaceGo fuel rest3
              else replChar :: utf8DecodeReplaceGo fuel (b4 :: rest3)
            | [] => [replChar]
          else replChar :: utf8DecodeReplaceGo fuel (b3 :: rest2)
        | [] => [replChar]
      else replChar :: utf8DecodeReplaceGo fuel (b2 :: rest)
    else replChar :: utf8DecodeReplaceGo fuel (b2 :: rest)

/-- Lossy UTF-8 decoding (`errors="replace"`): never fails; each maximal
subpart of an ill-formed sequence yields one U+FFFD. -/
def utf8DecodeReplace (l : List Nat) : List Char :=
  utf8DecodeReplaceGo l.length l

/-- UTF-8 encoding of a single character (`str.encode("utf-8")`, per char). -/
def utf8EncodeChar (c : Char) : List Nat :=
  let n := c.toNat
  if n < 0x80 then [n]
  else if n < 0x800 then [0xC0 + n / 0x40, 0x80 + n % 0x40]
  else if n < 0x10000 then
    [0xE0 + n / 0x1000, 0x80 + (n / 0x40) % 0x40, 0x80 + n % 0x40]
  else
    [0xF0 + n / 0x40000, 0x80 + (n / 0x1000) % 0x40, 0x80 + (n / 0x40) % 0x40, 0x80 + n % 0x40]

/-- `str.encode("utf-8")`: UTF-8 bytes of a string. -/
def encodeUtf8 (s : String) : List Nat :=
  s.data.foldr (fun c acc => utf8EncodeChar c ++ acc) []

/-! ## Python `repr` of a string

`print_tree` renders leaf text with `!r`, i.e. `repr(decoded_text)`.
We model CPython `str.__repr__` for strings whose characters are ASCII or
printable: quote selection (single quote unless the string contains a
single quote and no double quote), backslash escapes for the backslash,
the chosen quote, newline, carriage return and tab, and `\xNN` escapes for
the remaining C0 controls and DEL.  Non-ASCII code points are rendered
as-is (CPython additionally escapes non-printable non-ASCII code points;
no claim here depends on those). -/

/-- A single-quote character. -/
def sQuote : Char := Char.ofNat 39

/-- A double-quote character. -/
def dQuote : Char := Char.ofNat 34

/-- A backslash character. -/
def backslashChar : Char := Char.ofNat 92

/-- Lowercase hexadecimal digit for `n < 16`. -/
def hexDigit (n : Nat) : Char :=
  if n < 10 then Char.ofNat (48 + n) else Char.ofNat (87 + n)

/-- Two lowercase hex digits of `n % 256`. -/
def hex2 (n : Nat) : List Char := [hexDigit (n / 16 % 16), hexDigit (n % 16)]

/-- `repr` escaping of one character, given the chosen quote `q`. -/
def pyReprChar (q : Char) (c : Char) : List Char :=
  if c = backslashChar then [backslashChar, backslashChar]
  else if c = q then [backslashChar, q]
  else if c = Char.ofNat 10 then [backslashChar, Char.ofNat 110]
  else if c = Char.ofNat 13 then [backslashChar, Char.ofNat 114]
  else if c = Char.ofNat 9 then [backslashChar, Char.ofNat 116]
  else if c.toNat < 32 || c.toNat = 127 then backslashChar :: Char.ofNat 120 :: hex2 c.toNat
  else [c]

/-- CPython `repr` of a string (see the restriction noted above). -/
def pyRepr (s : String) : String :=
  let q := if s.data.contains sQuote && !s.data.contains dQuote then dQuote else sQuote
  String.mk (q :: (s.data.map (pyReprChar q)).flatten ++ [q])

/-! ## JSON documents and `json.dumps` -/

/-- A JSON value as produced by the scripts: strings, non-negative integers
(row/column numbers), arrays, and objects with ordered keys (Python dicts
preserve insertion order, and `json.dumps` emits keys in that order). -/
inductive Json where
  | str : String → Json
  | num : Nat → Json
  | arr : List Json → Json
  | obj : List (String × Json) → Json
deriving Repr

/-- JSON string escaping with `ensure_ascii=False`: escape the double quote,
the backslash, and control characters below 0x20 (`\n`, `\r`, `\t`, `\b`,
`\f` short forms, `\u00NN` otherwise); all other characters are emitted
as-is. -/
def jsonEscapeChar (c : Char) : List Char :=
  if c = dQuote then [backslashChar, dQuote]
  else if c = backslashChar then [backslashChar, backslashChar]
  else if c = Char.ofNat 10 then [backslashChar, Char.ofNat 110]
  else if c = Char.ofNat 13 then [backslashChar, Char.ofNat 114]
  else if c = Char.ofNat 9 then [backslashChar, Char.ofNat 116]
  else if c = Char.ofNat 8 then [backslashChar, Char.ofNat 98]
  else if c = Char.ofNat 12 then [backslashChar, Char.ofNat 102]
  else if c.toNat < 32 then backslashChar :: Char.ofNat 117 :: Char.ofNat 48 :: Char.ofNat 48 :: hex2 c.toNat
  else [c]

/-- A JSON string literal (quoted, escaped). -/
def jsonStr (s : String) : String :=
  String.mk (dQuote :: (s.data.map jsonEscapeChar).flatten ++ [dQuote])

/-- `n` spaces. -/
def spaces (n : Nat) : String := String.mk (List.replicate n (Char.ofNat 32))

mutual

/-- `json.dumps(v, indent=2, ensure_ascii=False)` at current indentation
`ind`: keys in insertion order, items separated by `",\n"`, key separator
`": "`, empty containers compact. -/
def dumpsInd (ind : Nat) : Json → String
  | Json.str s => jsonStr s
  | Json.num n => toString n
  | Json.arr [] => "[]"
  | Json.arr (x :: xs) =>
    "[\n" ++ String.intercalate ",\n" (dumpsIndArr (ind + 2) (x :: xs))
      ++ "\n" ++ spaces ind ++ "]"
  | Json.obj [] => "\x7b\x7d"
  | Json.obj (kv :: kvs) =>
    "\x7b\n" ++ String.intercalate ",\n" (dumpsIndObj (ind + 2) (kv :: kvs))
      ++ "\n" ++ spaces ind ++ "\x7d"

/-- Array items, each on its own indented line. -/
def dumpsIndArr (ind : Nat) : List Json → List String
  | [] => []
  | x :: xs => (spaces ind ++ dumpsInd ind x) :: dumpsIndArr ind xs

/-- Object entries, each on its own indented line. -/
def dumpsIndObj (ind : Nat) : List (String × Json) → List String
  | [] => []
  | (k, v) :: kvs => (spaces ind ++ jsonStr k ++ ": " ++ dumpsInd ind v) :: dumpsIndObj ind kvs

end

mutual

/-- `json.dumps(v, ensure_ascii=False)` with default separators
`(", ", ": ")` and no indentation. -/
def dumpsCompact : Json → String
  | Json.str s => jsonStr s
  | Json.num n => toString n
  | Json.arr xs => "[" ++ String.intercalate ", " (dumpsCompactArr xs) ++ "]"
  | Json.obj kvs => "\x7b" ++ String.intercalate ", " (dumpsCompactObj kvs) ++ "\x7d"

/-- Array items, compact form. -/
def dumpsCompactArr : List Json → List String
  | [] => []
  | x :: xs => dumpsCompact x :: dumpsCompactArr xs

/-- Object entries, compact form. -/
def dumpsCompactObj : List (String × Json) → List String
  | [] => []
  | (k, v) :: kvs => (jsonStr k ++ ": " ++ dumpsCompact v) :: dumpsCompactObj kvs

end

/-! ## The concrete syntax tree

A tree-sitter node, as observed by the scripts: `type` (grammar symbol
name), `start_point`/`end_point` (zero-based row/column pairs), `text`
(the raw source bytes the node spans), the library's named-node flag
(`is_named`: `true` for grammar-rule — non-terminal — nodes, `false` for
anonymous tokens; the scripts never consult it), and the ordered list of
children (`child_count` is its length). -/

inductive TSNode where
  | mk : (type : String) → (startPoint : Nat × Nat) → (endPoint : Nat × Nat) →
      (text : List Nat) → (isNamed : Bool) → (children : List TSNode) → TSNode

/-- `node.type`. -/
def TSNode.type : TSNode → String
  | TSNode.mk t _ _ _ _ _ => t

/-- `node.start_point` as a (row, column) pair. -/
def TSNode.startPoint : TSNode → Nat × Nat
  | TSNode.mk _ s _ _ _ _ => s

/-- `node.end_point` as a (row, column) pair. -/
def TSNode.endPoint : TSNode → Nat × Nat
  | TSNode.mk _ _ e _ _ _ => e

/-- `node.text`: the raw bytes of the source slice the node spans. -/
def TSNode.text : TSNode → List Nat
  | TSNode.mk _ _ _ x _ _ => x

/-- `node.is_named`: `true` for grammar-rule (non-terminal) nodes. -/
def TSNode.isNamed : TSNode → Bool
  | TSNode.mk _ _ _ _ n _ => n

/-- `node.children`. -/
def TSNode.children : TSNode → List TSNode
  | TSNode.mk _ _ _ _ _ c => c

/-- A (row, column) point as the JSON array `[row, column]`. -/
def pointJson (p : Nat × Nat) : Json := Json.arr [Json.num p.1, Json.num p.2]

mutual

/-- `node_to_dict` (extract_python_ast.py, lines 45-56): recursively convert
a tree-sitter node into a nested dict with keys `type`, `start`, `end` and
then `text` (when `child_count == 0`, via strict `node.text.decode("utf-8")`)
or `children` (otherwise).  `none` models a raised `UnicodeDecodeError`. -/
def node_to_dict : TSNode → Option Json
  | TSNode.mk t s e txt _ children =>
    if children.length = 0 then
      match utf8DecodeStrict txt with
      | none => none
      | some cs =>
        some (Json.obj [("type", Json.str t), ("start", pointJson s),
          ("end", pointJson e), ("text", Json.str (String.mk cs))])
    else
      match node_to_dict_list children with
      | none => none
      | some js =>
        some (Json.obj [("type", Json.str t), ("start", pointJson s),
          ("end", pointJson e), ("children", Json.arr js)])

/-- The list comprehension `[node_to_dict(child) for child in node.children]`;
a failure in any child propagates. -/
def node_to_dict_list : List TSNode → Option (List Json)
  | [] => some []
  | n :: ns =>
    match node_to_dict n, node_to_dict_list ns with
    | some j, some js => some (j :: js)
    | _, _ => none

end

/-- `"\n".join(lines)`. -/
def joinNL : List String → String
  | [] => ""
  | a :: rest =>
    match rest with
    | [] => a
    | _ :: _ => a ++ "\n" ++ joinNL rest

mutual

/-- `print_tree` (extract_python_ast.py, lines 59-69): human-readable
indented rendering.  A leaf (`child_count == 0`) yields
`"  " * indent ++ type ++ ": " ++ repr(text.decode("utf-8"))`; otherwise the
type line is followed by each child rendered at `indent + 1`, all joined
with newlines.  `none` models a raised `UnicodeDecodeError`. -/
def print_tree (node : TSNode) (indent : Nat) : Option String :=
  match node with
  | TSNode.mk t _ _ txt _ children =>
    let pre := spaces (2 * indent)
    if children.length = 0 then
      match utf8DecodeStrict txt with
      | none => none
      | some cs => some (pre ++ t ++ ": " ++ pyRepr (String.mk cs))
    else
      match print_tree_list children (indent + 1) with
      | none => none
      | some ls => some (joinNL ((pre ++ t) :: ls))

/-- The loop `for child in node.children: lines.append(print_tree(child, indent + 1))`. -/
def print_tree_list : List TSNode → Nat → Option (List String)
  | [], _ => some []
  | n :: ns, ind =>
    match print_tree n ind, print_tree_list ns ind with
    | some s, some ss => some (s :: ss)
    | _, _ => none

end

mutual

/-- All nodes of a tree in preorder. -/
def allNodes : TSNode → List TSNode
  | TSNode.mk t s e x n c => TSNode.mk t s e x n c :: allNodesList c

/-- All nodes of a forest in preorder. -/
def allNodesList : List TSNode → List TSNode
  | [] => []
  | n :: ns => allNodes n ++ allNodesList ns

end

mutual

/-- Modelled from the spec (§4.3 Tree Renderer): one line per node,
indentation two spaces times depth; a leaf line is
`type: "decoded text"` with the text in quoted escaped form; a
non-terminal line is the type on its own line followed by each child's
lines at depth + 1, in source order.  Leaf text is the decoding of the
leaf's bytes (the decoding policy itself is the subject of C1; the
rendered shape is at issue here, so the code's strict decode is used,
with an irrelevant default on the failure C1 treats). -/
def renderLinesSpec : TSNode → Nat → List String
  | TSNode.mk t _ _ txt _ children, depth =>
    if children.length = 0 then
      [spaces (2 * depth) ++ t ++ ": "
        ++ pyRepr (String.mk ((utf8DecodeStrict txt).getD []))]
    else
      (spaces (2 * depth) ++ t) :: renderLinesSpecList children (depth + 1)

/-- The concatenation of each child's spec rendering, in source order. -/
def renderLinesSpecList : List TSNode → Nat → List String
  | [], _ => []
  | n :: ns, depth => renderLinesSpec n depth ++ renderLinesSpecList ns depth

end

mutual

/-- Structural (field-by-field) equivalence of two tree-sitter snapshots,
as holds between the trees two independent runs of the parser produce on
identical input: same type, points, text bytes, named flag, and pairwise
equivalent children. -/
def tsEquiv : TSNode → TSNode → Prop
  | TSNode.mk t1 s1 e1 x1 n1 c1, TSNode.mk t2 s2 e2 x2 n2 c2 =>
    t1 = t2 ∧ s1 = s2 ∧ e1 = e2 ∧ x1 = x2 ∧ n1 = n2 ∧ tsEquivList c1 c2

/-- Pairwise structural equivalence of two forests. -/
def tsEquivList : List TSNode → List TSNode → Prop
  | [], [] => True
  | a :: l1, b :: l2 => tsEquiv a b ∧ tsEquivList l1 l2
  | _, _ => False

end

/-! ## Filesystem and the driver `main` (extract_python_ast.py)

The filesystem is a map from path strings to optional byte contents.
`main`'s behavior is a function of the command-line arguments (the entries
of `sys.argv` after the script name), the filesystem, and the parser
(`Parser(PY_LANGUAGE).parse`, an external engine modelled as an arbitrary
function from source bytes to a root node). -/

/-- The filesystem: path → contents (bytes), `none` when absent. -/
def FS : Type := String → Option (List Nat)

/-- Update the filesystem at one path. -/
def FS.set (fs : FS) (p : String) (v : List Nat) : FS :=
  fun q => if q = p then some v else fs q

/-- `OUTPUT_FILE = TEMP_DIR / "python_ast.json"` with
`TEMP_DIR = REPO_ROOT / "src" / "temp"` (src/config.py). -/
def OUTPUT_FILE : String := "src/temp/python_ast.json"

/-- The built-in `SAMPLE_CODE` snippet (extract_python_ast.py, lines 23-40). -/
def SAMPLE_CODE : String :=
  "def fibonacci(n: int) -> int:\n    if n <= 1:\n        return n\n    a, b = 0, 1\n    for _ in range(2, n + 1):\n        a, b = b, a + b\n    return b\n\n\nclass Calculator:\n    def __init__(self, value: float = 0):\n        self.value = value\n\n    def add(self, x: float) -> \"Calculator\":\n        self.value += x\n        return self\n"

/-- How a run of `main` ends: normal return (exit status 0), an explicit
`sys.exit(1)`, or an uncaught exception (also a nonzero exit status). -/
inductive MainResult where
  | ok : MainResult
  | exitFail : MainResult
  | raised : MainResult
deriving Repr, DecidableEq

/-- The JSON document `{"source_code": code, "ast": node_to_dict(root)}`
serialized by `json.dumps(…, indent=2, ensure_ascii=False)`
(extract_python_ast.py, lines 93-98), as UTF-8 bytes; `none` models an
exception raised while serializing. -/
def pipelineJsonBytes (code : String) (root : TSNode) : Option (List Nat) :=
  match node_to_dict root with
  | none => none
  | some ast =>
    some (encodeUtf8 (dumpsInd 0 (Json.obj [("source_code", Json.str code), ("ast", ast)])))

/-- The parse-render-serialize-write tail of `main` (lines 84-99), after the
source string `code` is in hand: parse the UTF-8 encoding of `code`, render
the readable tree (strict leaf decodes may raise), then serialize and write
the artifact.  `OUTPUT_FILE.parent.mkdir` touches no file contents. -/
def mainTail (parse : List Nat → TSNode) (code : String) (fs : FS) : MainResult × FS :=
  let tree := parse (encodeUtf8 code)
  match print_tree tree 0 with
  | none => (MainResult.raised, fs)
  | some _ =>
    match pipelineJsonBytes code tree with
    | none => (MainResult.raised, fs)
    | some bytes => (MainResult.ok, fs.set OUTPUT_FILE bytes)

/-- `main` (extract_python_ast.py, lines 72-99).  With an argument: a missing
path is `sys.exit(1)` before anything else; otherwise the source file is read
with a strict UTF-8 decode (`read_text(encoding="utf-8")`), which raises on
invalid bytes.  With no argument the built-in sample is used. -/
def mainRun (parse : List Nat → TSNode) (argv : List String) (fs : FS) : MainResult × FS :=
  match argv with
  | srcPath :: _ =>
    match fs srcPath with
    | none => (MainResult.exitFail, fs)
    | some bytes =>
      match utf8DecodeStrict bytes with
      | none => (MainResult.raised, fs)
      | some cs => mainTail parse (String.mk cs) fs
  | [] => mainTail parse SAMPLE_CODE fs

/-! ## `Path.write_text` under failure

`OUTPUT_FILE.write_text(data)` opens the destination with mode `"w"` —
truncating whatever is there — and then writes the data.  A failure
(permission error aside, e.g. disk full or interruption) can therefore
strike after truncation: `k` is the number of bytes successfully written
before the failure; `k ≥ data.length` is a completed write.  The `Bool`
result is `false` when the failure is raised to the caller (`main` wraps
the call in no handler, so it propagates). -/
def write_text_run (fs : FS) (path : String) (data : List Nat) (k : Nat) :
    Bool × FS :=
  if data.length ≤ k then (true, fs.set path data)
  else (false, fs.set path (data.take k))

/-! ## The dataset extractor (extract_codenet_data.py)

`pandas` is external: `pd.read_csv(…, dtype=str)` is modelled as a function
from raw bytes to an optional table (`none` where pandas raises); a table is
a list of rows, each a list of column-name/value pairs, a missing pair being
a NaN. -/

/-- A DataFrame row with `dtype=str`: column name → optional string value. -/
def Row : Type := List (String × String)

/-- Look a column up in a row (`row["col"]`; `none` is NaN). -/
def Row.get (r : Row) (col : String) : Option String :=
  (r.find? (fun kv => kv.1 = col)).map (fun kv => kv.2)

/-- A DataFrame with `dtype=str`: the frame-level column list (indexing a
column absent from it raises `KeyError`) and the rows (a value absent from a
row is a NaN). -/
structure Table where
  cols : List String
  rows : List Row

/-- Paths used by the extractor (extract_codenet_data.py, lines 27-33),
relative to the repository root. -/
def CODENET_ROOT : String := "data/RAG/unprocessed/Project_CodeNet"

/-- `PROBLEM_LIST_CSV = CODENET_ROOT / "metadata" / "problem_list.csv"`. -/
def PROBLEM_LIST_CSV : String := CODENET_ROOT ++ "/metadata/problem_list.csv"

/-- `METADATA_DIR = CODENET_ROOT / "metadata"`. -/
def METADATA_DIR : String := CODENET_ROOT ++ "/metadata"

/-- `DATA_DIR = CODENET_ROOT / "data"`. -/
def CN_DATA_DIR : String := CODENET_ROOT ++ "/data"

/-- `OUTPUT_FILE = OUTPUT_DIR / "python_go_pairs.jsonl"`. -/
def CN_OUTPUT_FILE : String := "data/processed/parallel_corpus/codeNet/python_go_pairs.jsonl"

/-- `read_accepted_submissions` (lines 36-48): the rows of
`{problem_id}.csv` whose `language` and `status` columns match; a missing or
unreadable CSV gives an empty frame (`pd.DataFrame()`); building the mask
over a frame lacking either column raises a `KeyError` (`Except.error`),
which no caller catches. -/
def read_accepted_submissions (readCsv : List Nat → Option Table) (fs : FS)
    (problem_id : String) (language : String) : Except Unit Table :=
  match fs (METADATA_DIR ++ "/" ++ problem_id ++ ".csv") with
  | none => Except.ok (Table.mk [] [])
  | some bytes =>
    match readCsv bytes with
    | none => Except.ok (Table.mk [] [])
    | some df =>
      if df.cols.contains "language" && df.cols.contains "status" then
        Except.ok (Table.mk df.cols (df.rows.filter (fun r =>
          r.get "language" = some language && r.get "status" = some "Accepted")))
      else Except.error ()

/-- The `for _, row in accepted.iterrows()` loop of `shortest_accepted_code`
(lines 67-77) over the size-sorted rows: the first row whose submission file
exists is read with a lossy UTF-8 decode; `row["submission_id"]` raises
`KeyError` when the frame lacks the column (a NaN value renders as `"nan"`
in the f-string). -/
def shortestGo (fs : FS) (cols : List String) (lang_dir : String) (ext : String) :
    List (Nat × Row) → Except Unit (Option String)
  | [] => Except.ok none
  | (_, r) :: rest =>
    if cols.contains "submission_id" then
      let sid := (r.get "submission_id").getD "nan"
      match fs (lang_dir ++ "/" ++ sid ++ "." ++ ext) with
      | none => shortestGo fs cols lang_dir ext rest
      | some bytes => Except.ok (some (String.mk (utf8DecodeReplace bytes)))
    else Except.error ()

/-- `shortest_accepted_code` (lines 51-77): among accepted submissions with a
numeric `code_size`, sorted ascending, the first whose file exists, read with
a lossy UTF-8 decode; `none` when nothing is found.  (pandas `sort_values`
is modelled as a stable sort on the parsed size and `to_numeric` as
natural-number parsing, which covers the integral sizes the dataset
carries.) -/
def shortest_accepted_code (readCsv : List Nat → Option Table) (fs : FS)
    (problem_id : String) (language : String) (lang_dir : String) (ext : String) :
    Except Unit (Option String) :=
  match read_accepted_submissions readCsv fs problem_id language with
  | Except.error e => Except.error e
  | Except.ok accepted =>
    if accepted.rows.isEmpty then Except.ok none
    else if accepted.cols.contains "code_size" then
      let sized := accepted.rows.filterMap (fun r =>
        match r.get "code_size" with
        | none => none
        | some sz => (sz.toNat?).map (fun n => (n, r)))
      let sorted := sized.mergeSort (fun a b => a.1 ≤ b.1)
      shortestGo fs accepted.cols lang_dir ext sorted
    else Except.error ()

/-- `read_description` (lines 80-88): the problem's HTML description, lossily
decoded, or `""` when absent. -/
def read_description (fs : FS) (problem_id : String) : String :=
  match fs (CN_DATA_DIR ++ "/" ++ problem_id ++ "/description.html") with
  | none => ""
  | some bytes => String.mk (utf8DecodeReplace bytes)

/-- One iteration of the problem loop (lines 120-147): `none` when the
problem is skipped (missing language directories or no accepted code on
either side), otherwise the JSONL line written for the pair
(`json.dumps(record, ensure_ascii=False) + "\n"`).  `dirs` tells which
paths are directories (`python_dir.is_dir()`). -/
def processProblem (readCsv : List Nat → Option Table) (dirs : String → Bool)
    (fs : FS) (problem_id : String) : Except Unit (Option String) :=
  let python_dir := CN_DATA_DIR ++ "/" ++ problem_id ++ "/Python"
  let go_dir := CN_DATA_DIR ++ "/" ++ problem_id ++ "/Go"
  if !dirs python_dir || !dirs go_dir then Except.ok none
  else
    match shortest_accepted_code readCsv fs problem_id "Python" python_dir "py" with
    | Except.error e => Except.error e
    | Except.ok python_code =>
      match shortest_accepted_code readCsv fs problem_id "Go" go_dir "go" with
      | Except.error e => Except.error e
      | Except.ok go_code =>
        match python_code, go_code with
        | some pc, some gc =>
          let description := read_description fs problem_id
          Except.ok (some (dumpsCompact (Json.obj
            [("problem_id", Json.str problem_id),
             ("python_code", Json.str pc),
             ("go_code", Json.str gc),
             ("problem_description", Json.str description)]) ++ "\n"))
        | _, _ => Except.ok none

/-- The problem loop with an external abort budget: `budget` is the number of
iterations allowed to run before the process dies (a crash, a kill signal);
the result is the list of JSONL lines written so far and whether the loop ran
to completion (an in-loop exception also stops it early). -/
def codenetLoop (readCsv : List Nat → Option Table) (dirs : String → Bool)
    (fs : FS) : List String → Nat → List String × Bool
  | [], _ => ([], true)
  | _ :: _, 0 => ([], false)
  | pid :: rest, budget + 1 =>
    match processProblem readCsv dirs fs pid with
    | Except.error _ => ([], false)
    | Except.ok none => codenetLoop readCsv dirs fs rest budget
    | Except.ok (some line) =>
      let r := codenetLoop readCsv dirs fs rest budget
      (line :: r.1, r.2)

/-- `main` of extract_codenet_data.py (lines 91-153), with an abort budget
for the loop.  A missing problem list is `sys.exit(1)`; an unreadable one
raises out of `pd.read_csv`; a problem list without an `id` column raises a
`KeyError` — all before the output file is touched.  Otherwise
`OUTPUT_FILE.open("w")` truncates the output file before the first
iteration, and the file ends up holding exactly the lines the loop emitted
before finishing or dying. -/
def codenetMain (readCsv : List Nat → Option Table) (dirs : String → Bool)
    (fs : FS) (budget : Nat) : MainResult × FS :=
  match fs PROBLEM_LIST_CSV with
  | none => (MainResult.exitFail, fs)
  | some bytes =>
    match readCsv bytes with
    | none => (MainResult.raised, fs)
    | some problem_list =>
      if problem_list.cols.contains "id" then
        let problem_ids := problem_list.rows.filterMap (fun r => r.get "id")
        let r := codenetLoop readCsv dirs fs problem_ids budget
        ((if r.2 then MainResult.ok else MainResult.raised),
          fs.set CN_OUTPUT_FILE (encodeUtf8 (String.join r.1)))
      else (MainResult.raised, fs)

/-! ## Observers and concrete fixtures -/

/-- The keys of a JSON object, in emission order (`[]` for non-objects). -/
def Json.objKeys : Json → List String
  | Json.obj kvs => kvs.map (fun kv => kv.1)
  | _ => []

/-- Modelled from the spec: the Parser Adapter's root node for the empty
source `""` — the spec's example fixes it as present with
`start == end == (0,0)` and no children (`children: []` as a tree-level
fact); the grammar's start symbol is `module`, a grammar-rule
(non-terminal) node, and the zero-width slice it spans is empty.  The
parsing engine itself (tree-sitter) is an external dependency, not part of
this repository's sources. -/
def emptyParseRoot : TSNode := TSNode.mk "module" (0, 0) (0, 0) [] true []

/-- A leaf whose byte content `[0xFF]` is not valid UTF-8 (any lone byte
`≥ 0x80` would do). -/
def badUtf8Leaf : TSNode := TSNode.mk "identifier" (0, 0) (0, 1) [0xFF] false []

/-- A childless grammar-rule (non-terminal) node: `is_named` is true and the
child list is empty, as for the `module` node of an empty source. -/
def childlessNamed : TSNode := TSNode.mk "block" (1, 0) (1, 0) [] true []

/-- A two-node tree: a `module` with one `identifier` leaf spanning `"a"`. -/
def wLeaf : TSNode := TSNode.mk "identifier" (0, 0) (0, 1) [0x61] true []

/-- The root of the two-node fixture tree. -/
def wTree : TSNode := TSNode.mk "module" (0, 0) (0, 1) [0x61] true [wLeaf]

/-- A filesystem holding one artifact at `OUTPUT_FILE` (byte `0x41`). -/
def wFsOut : FS := fun p => if p = OUTPUT_FILE then some [0x41] else none

/-- The empty filesystem. -/
def wFsEmpty : FS := fun _ => none

/-- A filesystem with one source file of invalid UTF-8 content. -/
def wFsBad : FS := fun p => if p = "bad.py" then some [0xFF] else none

/-- A parser stub for witnesses (the theorems quantify over the parser). -/
def wParse : List Nat → TSNode := fun _ => emptyParseRoot

/-- A CSV reader stub: every byte string reads as a one-problem list. -/
def wReadCsv : List Nat → Option Table :=
  fun _ => some (Table.mk ["id"] [[("id", "p00001")]])

/-- A directory oracle with no directories (every problem is skipped). -/
def wDirs : String → Bool := fun _ => false

/-- A filesystem holding a readable problem list and a pre-existing corpus
(bytes `OLD`) at the extractor's output path. -/
def wFsCodenet : FS := fun p =>
  if p = PROBLEM_LIST_CSV then some [0x69, 0x64]
  else if p = CN_OUTPUT_FILE then some [0x4F, 0x4C, 0x44]
  else none

/-! ## Fixtures for determinism (two independently built, equal snapshots) -/

/-- A second, separately constructed copy of the `wLeaf` leaf. -/
def wLeaf2 : TSNode := TSNode.mk "identifier" (0, 0) (0, 1) [0x61] true []

/-- A second, separately constructed copy of the `wTree` tree. -/
def wTree2 : TSNode := TSNode.mk "module" (0, 0) (0, 1) [0x61] true [wLeaf2]

/-! ## Structural lemmas about trees -/

/-- A child is smaller than its parent (for well-founded induction). -/
theorem TSNode.sizeOf_lt_of_mem_children {c : TSNode} {t : TSNode}
    (h : c ∈ t.children) : sizeOf c < sizeOf t := by
  cases t with
  | mk ty s e x n ch =>
    simp only [TSNode.children] at h
    have := List.sizeOf_lt_of_mem h
    simp only [TSNode.mk.sizeOf_spec]
    omega

/-- Induction over a tree: prove a property of a node from the property of
all its children. -/
theorem TSNode.inductionOn {P : TSNode → Prop}
    (step : ∀ ty s e x n ch, (∀ m ∈ ch, P m) → P (TSNode.mk ty s e x n ch)) :
    ∀ t, P t := by
  have key : ∀ (N : Nat) (t : TSNode), sizeOf t ≤ N → P t := by
    intro N
    induction N with
    | zero =>
      intro t ht
      cases t with
      | mk ty s e x n ch => simp [TSNode.mk.sizeOf_spec] at ht
    | succ N ih =>
      intro t ht
      cases t with
      | mk ty s e x n ch =>
        apply step
        intro m hm
        apply ih
        have hlt : sizeOf m < sizeOf (TSNode.mk ty s e x n ch) :=
          TSNode.sizeOf_lt_of_mem_children (by simpa [TSNode.children] using hm)
        omega
  intro t
  exact key (sizeOf t) t le_rfl

/-- Unfolding `allNodes` at a constructor. -/
theorem allNodes_mk (ty : String) (s e : Nat × Nat) (x : List Nat) (n : Bool)
    (ch : List TSNode) :
    allNodes (TSNode.mk ty s e x n ch) = TSNode.mk ty s e x n ch :: allNodesList ch := rfl

/-- Membership in the preorder listing of a forest. -/
theorem mem_allNodesList {m : TSNode} {l : List TSNode} :
    m ∈ allNodesList l ↔ ∃ a ∈ l, m ∈ allNodes a := by
  induction l with
  | nil => simp [allNodesList]
  | cons a l ih => simp [allNodesList, List.mem_append, ih]

/-- A tree is among its own nodes. -/
theorem self_mem_allNodes (t : TSNode) : t ∈ allNodes t := by
  cases t with
  | mk ty s e x n ch => simp [allNodes]

/-- A node of a child is a node of the parent. -/
theorem allNodes_sub {m : TSNode} {ty : String} {s e : Nat × Nat} {x : List Nat}
    {n : Bool} {ch : List TSNode} (hm : m ∈ ch) {a : TSNode}
    (ha : a ∈ allNodes m) : a ∈ allNodes (TSNode.mk ty s e x n ch) := by
  rw [allNodes_mk]
  exact List.mem_cons_of_mem _ (mem_allNodesList.mpr ⟨m, hm, ha⟩)

/-- Field-by-field equivalent forests are equal, given the inductive
hypothesis for the left forest's members. -/
theorem tsEquivList_eq_of (l1 : List TSNode)
    (ih : ∀ m ∈ l1, ∀ b, tsEquiv m b → m = b) :
    ∀ l2, tsEquivList l1 l2 → l1 = l2 := by
  induction l1 with
  | nil =>
    intro l2 h
    cases l2 with
    | nil => rfl
    | cons b l2 => simp [tsEquivList] at h
  | cons a l ihl =>
    intro l2 h
    cases l2 with
    | nil => simp [tsEquivList] at h
    | cons b l2 =>
      have h' : tsEquiv a b ∧ tsEquivList l l2 := by simpa [tsEquivList] using h
      have ha : a = b := ih a (by simp) b h'.1
      have hl : l = l2 := ihl (fun m hm => ih m (by simp [hm])) l2 h'.2
      rw [ha, hl]

/-- Field-by-field equivalent snapshots are equal: the serialized record
graph is fully determined by the observable content of the tree. -/
theorem tsEquiv_eq : ∀ a b, tsEquiv a b → a = b := by
  refine TSNode.inductionOn (fun ty s e x n ch ih b hb => ?_)
  cases b with
  | mk ty2 s2 e2 x2 n2 ch2 =>
    have h' : ty = ty2 ∧ s = s2 ∧ e = e2 ∧ x = x2 ∧ n = n2 ∧ tsEquivList ch ch2 := by
      simpa [tsEquiv] using hb
    obtain ⟨h1, h2, h3, h4, h5, h6⟩ := h'
    have : ch = ch2 := tsEquivList_eq_of ch ih ch2 h6
    subst h1; subst h2; subst h3; subst h4; subst h5; rw [this]

/-- With an exhausted budget the loop has emitted nothing. -/
theorem codenetLoop_budget_zero (rc : List Nat → Option Table) (ds : String → Bool)
    (fs : FS) (l : List String) : (codenetLoop rc ds fs l 0).1 = [] := by
  cases l <;> simp [codenetLoop]

/-- Serializing a forest succeeds when serializing each member does. -/
theorem node_to_dict_list_isSome {l : List TSNode}
    (h : ∀ m ∈ l, (node_to_dict m).isSome = true) :
    (node_to_dict_list l).isSome = true := by
  induction l with
  | nil => rfl
  | cons a l ih =>
    obtain ⟨j, hj⟩ := Option.isSome_iff_exists.mp (h a (by simp))
    obtain ⟨js, hjs⟩ := Option.isSome_iff_exists.mp (ih (fun m hm => h m (by simp [hm])))
    simp [node_to_dict_list, hj, hjs]

/-- Rendering a forest succeeds when rendering each member does. -/
theorem print_tree_list_isSome {l : List TSNode} {d : Nat}
    (h : ∀ m ∈ l, (print_tree m d).isSome = true) :
    (print_tree_list l d).isSome = true := by
  induction l with
  | nil => rfl
  | cons a l ih =>
    obtain ⟨s, hs⟩ := Option.isSome_iff_exists.mp (h a (by simp))
    obtain ⟨ss, hss⟩ := Option.isSome_iff_exists.mp (ih (fun m hm => h m (by simp [hm])))
    simp [print_tree_list, hs, hss]

/-! ## Lemmas about line joining and the rendered shape -/

/-- Unfolding `joinNL` at a cons with a nonempty tail. -/
theorem joinNL_cons (a : String) (l : List String) (hl : l ≠ []) :
    joinNL (a :: l) = a ++ "\n" ++ joinNL l := by
  cases l with
  | nil => exact absurd rfl hl
  | cons b m => rfl

/-- `joinNL` distributes over append of nonempty line lists. -/
theorem joinNL_append (l1 l2 : List String) (h1 : l1 ≠ []) (h2 : l2 ≠ []) :
    joinNL (l1 ++ l2) = joinNL l1 ++ "\n" ++ joinNL l2 := by
  induction l1 with
  | nil => exact absurd rfl h1
  | cons a l ih =>
    cases l with
    | nil =>
      cases l2 with
      | nil => exact absurd rfl h2
      | cons c m => rfl
    | cons b m =>
      rw [List.cons_append, joinNL_cons a ((b :: m) ++ l2) (by simp),
        joinNL_cons a (b :: m) (by simp), ih (by simp)]
      simp [String.append_assoc]

/-- Joining per-block joins equals joining the flattened blocks, for
nonempty blocks. -/
theorem joinNL_map_flatten (ls : List (List String)) (h : ∀ l ∈ ls, l ≠ []) :
    joinNL (ls.map joinNL) = joinNL ls.flatten := by
  induction ls with
  | nil => rfl
  | cons a rest ih =>
    cases rest with
    | nil => simp [joinNL]
    | cons b m =>
      have ha : a ≠ [] := h a (by simp)
      have hflat : (b :: m).flatten ≠ [] := by
        have hb : b ≠ [] := h b (by simp)
        cases b with
        | nil => exact absurd rfl hb
        | cons x xs => simp [List.flatten_cons]
      rw [List.map_cons, joinNL_cons (joinNL a) _ (by simp), List.flatten_cons,
        joinNL_append a _ ha hflat, ih (fun l hl => h l (by simp [hl]))]

/-- The spec rendering of a forest is the flattening of its members'
renderings. -/
theorem renderLinesSpecList_eq_flatten (l : List TSNode) (d : Nat) :
    renderLinesSpecList l d = (l.map (fun m => renderLinesSpec m d)).flatten := by
  induction l with
  | nil => rfl
  | cons a rest ih => simp [renderLinesSpecList, List.flatten_cons, ih]

/-- Every node renders to at least one line. -/
theorem renderLinesSpec_ne_nil (t : TSNode) (d : Nat) : renderLinesSpec t d ≠ [] := by
  cases t with
  | mk ty s e x n ch => cases ch <;> simp [renderLinesSpec]

/-- Rendering a forest collects each member's joined rendering. -/
theorem print_tree_list_eq {l : List TSNode} {d : Nat}
    (h : ∀ m ∈ l, print_tree m d = some (joinNL (renderLinesSpec m d))) :
    print_tree_list l d = some (l.map (fun m => joinNL (renderLinesSpec m d))) := by
  induction l with
  | nil => rfl
  | cons a rest ih =>
    simp [print_tree_list, h a (by simp), ih (fun m hm => h m (by simp [hm]))]

/-- The code's renderer agrees with the spec's line-by-line rendering
whenever every leaf's bytes decode. -/
theorem print_tree_eq_spec : ∀ (t : TSNode),
    (∀ n ∈ allNodes t, n.children.length = 0 → (utf8DecodeStrict n.text).isSome = true) →
    ∀ d, print_tree t d = some (joinNL (renderLinesSpec t d)) := by
  refine TSNode.inductionOn (fun ty s e x n ch ih hdec d => ?_)
  cases ch with
  | nil =>
    have hself := hdec (TSNode.mk ty s e x n []) (self_mem_allNodes _) (by simp [TSNode.children])
    obtain ⟨cs, hcs⟩ := Option.isSome_iff_exists.mp (by simpa [TSNode.text] using hself)
    simp [print_tree, renderLinesSpec, hcs, joinNL]
  | cons c cs2 =>
    have hml : ∀ m ∈ c :: cs2, print_tree m (d + 1) = some (joinNL (renderLinesSpec m (d + 1))) :=
      fun m hm => ih m hm (fun a ha hl => hdec a (allNodes_sub hm ha) hl) (d + 1)
    have hlist := print_tree_list_eq hml
    have hnonempty : ∀ l ∈ (c :: cs2).map (fun m => renderLinesSpec m (d + 1)), l ≠ [] := by
      intro l hl
      obtain ⟨m, _, rfl⟩ := List.mem_map.mp hl
      exact renderLinesSpec_ne_nil m (d + 1)
    have key : joinNL (((c :: cs2).map (fun m => renderLinesSpec m (d + 1))).map joinNL)
        = joinNL (renderLinesSpecList (c :: cs2) (d + 1)) := by
      rw [joinNL_map_flatten _ hnonempty, renderLinesSpecList_eq_flatten]
    have key2 : joinNL (List.map (fun m => joinNL (renderLinesSpec m (d + 1))) (c :: cs2))
        = joinNL (renderLinesSpecList (c :: cs2) (d + 1)) := by
      rw [show List.map (fun m => joinNL (renderLinesSpec m (d + 1))) (c :: cs2)
          = (List.map (fun m => renderLinesSpec m (d + 1)) (c :: cs2)).map joinNL by
        simp [List.map_map, Function.comp]]
      exact key
    simp only [print_tree, renderLinesSpec, hlist, List.length_cons]
    rw [if_neg (by omega), if_neg (by omega)]
    simp only [Option.some.injEq]
    have hrl : renderLinesSpecList (c :: cs2) (d + 1) ≠ [] := by
      simp [renderLinesSpecList]
      intro hc
      exact absurd hc (renderLinesSpec_ne_nil c (d + 1))
    rw [joinNL_cons _ _ (by simp), joinNL_cons _ _ hrl, key2]

/-- One rendered line per tree node. -/
theorem renderLinesSpec_length : ∀ (t : TSNode) (d : Nat),
    (renderLinesSpec t d).length = (allNodes t).length := by
  refine TSNode.inductionOn (fun ty s e x n ch ih d => ?_)
  have hlist : ∀ (l : List TSNode),
      (∀ m ∈ l, ∀ d2, (renderLinesSpec m d2).length = (allNodes m).length) →
      ∀ d2, (renderLinesSpecList l d2).length = (allNodesList l).length := by
    intro l
    induction l with
    | nil => intro _ _; rfl
    | cons a rest ihl =>
      intro hall d2
      simp [renderLinesSpecList, allNodesList, List.length_append,
        hall a (by simp) d2, ihl (fun m hm => hall m (by simp [hm])) d2]
  cases ch with
  | nil => simp [renderLinesSpec, allNodes, allNodesList]
  | cons c cs2 =>
    simp only [renderLinesSpec, allNodes_mk, List.length_cons]
    rw [if_neg (by simp)]
    simp [hlist (c :: cs2) (fun m hm => ih m hm), allNodesList]

/-! ## Newline-freedom of rendered lines -/

/-- Hex digits are not the newline character. -/
theorem hexDigit_ne_nl {m : Nat} (h : m < 16) : hexDigit m ≠ Char.ofNat 10 := by
  revert h
  revert m
  decide

/-- `repr` escaping never emits a raw newline (for a quote that is not
itself a newline). -/
theorem pyReprChar_noNL (q : Char) (hq : q ≠ Char.ofNat 10) (c : Char) :
    ∀ ch ∈ pyReprChar q c, ch ≠ Char.ofNat 10 := by
  intro ch hch
  unfold pyReprChar at hch
  split_ifs at hch with h1 h2 h3 h4 h5 h6
  · simp at hch
    subst hch
    decide
  · simp at hch
    rcases hch with h | h <;> subst h
    · decide
    · exact hq
  · simp at hch
    rcases hch with h | h <;> subst h <;> decide
  · simp at hch
    rcases hch with h | h <;> subst h <;> decide
  · simp at hch
    rcases hch with h | h <;> subst h <;> decide
  · simp [hex2] at hch
    rcases hch with h | h | h | h <;> subst h
    · decide
    · decide
    · exact hexDigit_ne_nl (by omega)
    · exact hexDigit_ne_nl (by omega)
  · simp at hch
    subst hch
    intro hcontra
    rw [hcontra] at h6
    simp at h6

/-- `repr` of a string contains no raw newline. -/
theorem pyRepr_noNL (s : String) : ∀ ch ∈ (pyRepr s).data, ch ≠ Char.ofNat 10 := by
  intro ch hch
  unfold pyRepr at hch
  set q := if s.data.contains sQuote && !s.data.contains dQuote then dQuote else sQuote with hqdef
  have hq : q ≠ Char.ofNat 10 := by
    rw [hqdef]
    split_ifs <;> decide
  simp only [String.mk] at hch
  rcases List.mem_cons.mp hch with h | h
  · subst h
    exact hq
  rcases List.mem_append.mp h with h2 | h2
  · obtain ⟨l, hl, hin⟩ := List.mem_flatten.mp h2
    obtain ⟨c, _, rfl⟩ := List.mem_map.mp hl
    exact pyReprChar_noNL q hq c ch hin
  · simp at h2
    subst h2
    exact hq

/-- Indentation contains no newline. -/
theorem spaces_noNL (n : Nat) : ∀ ch ∈ (spaces n).data, ch ≠ Char.ofNat 10 := by
  intro ch hch
  simp only [spaces, String.mk] at hch
  have := List.eq_of_mem_replicate hch
  subst this
  decide

/-- A character of an appended string is a character of one part. -/
theorem append_data_mem {a b : String} {ch : Char} (h : ch ∈ (a ++ b).data) :
    ch ∈ a.data ∨ ch ∈ b.data := by
  rw [String.data_append] at h
  exact List.mem_append.mp h

/-- Rendered lines hold no raw newline when node types hold none. -/
theorem renderLinesSpec_noNL : ∀ (t : TSNode),
    (∀ n ∈ allNodes t, ∀ ch ∈ n.type.data, ch ≠ Char.ofNat 10) →
    ∀ d, ∀ l ∈ renderLinesSpec t d, ∀ ch ∈ l.data, ch ≠ Char.ofNat 10 := by
  refine TSNode.inductionOn (fun ty s e x n ch ih hty d l hl c hc => ?_)
  have htySelf : ∀ c2 ∈ ty.data, c2 ≠ Char.ofNat 10 := by
    have := hty (TSNode.mk ty s e x n ch) (self_mem_allNodes _)
    simpa [TSNode.type] using this
  cases ch with
  | nil =>
    replace hl : l = spaces (2 * d) ++ ty ++ ": "
        ++ pyRepr (String.mk ((utf8DecodeStrict x).getD [])) := by
      simpa [renderLinesSpec] using hl
    subst hl
    rcases append_data_mem hc with h2 | h2
    · rcases append_data_mem h2 with h3 | h3
      · rcases append_data_mem h3 with h4 | h4
        · exact spaces_noNL _ c h4
        · exact htySelf c h4
      · intro hcontra
        subst hcontra
        simp at h3
    · exact pyRepr_noNL _ c h2
  | cons c0 cs2 =>
    simp only [renderLinesSpec, List.length_cons] at hl
    rw [if_neg (by omega)] at hl
    rcases List.mem_cons.mp hl with h | h
    · subst h
      rcases append_data_mem hc with h2 | h2
      · exact spaces_noNL _ c h2
      · exact htySelf c h2
    · rw [renderLinesSpecList_eq_flatten] at h
      obtain ⟨ll, hll, hinl⟩ := List.mem_flatten.mp h
      obtain ⟨m, hm, rfl⟩ := List.mem_map.mp hll
      exact ih m hm (fun a ha => hty a (allNodes_sub hm ha)) (d + 1) l hinl c hc

/-! ## The claims -/

/-- C1, counterexample: the claim says producing leaf text "never raises"
and is "total over arbitrary leaf byte content"; but on a leaf whose bytes
are `[0xFF]` (not valid UTF-8) both `node_to_dict` and `print_tree` raise
`UnicodeDecodeError` — the code calls `node.text.decode("utf-8")`, whose
default error handling is strict, not lossy. -/
theorem c1_strict_decode_counterexample :
    node_to_dict badUtf8Leaf = none ∧ print_tree badUtf8Leaf 0 = none :=
  ⟨rfl, rfl⟩

/-- C1, amended: leaf text is decoded strictly, so `node_to_dict` and
`print_tree` raise on malformed leaf bytes; they are total over every tree
all of whose leaves carry valid UTF-8 byte content. -/
theorem c1_decode_total_on_valid_utf8 (t : TSNode)
    (hdec : ∀ n ∈ allNodes t, n.children.length = 0 →
      (utf8DecodeStrict n.text).isSome = true) :
    (node_to_dict t).isSome = true ∧ ∀ d, (print_tree t d).isSome = true := by
  revert hdec
  revert t
  refine TSNode.inductionOn (fun ty s e x n ch ih hdec => ?_)
  cases ch with
  | nil =>
    have hself := hdec (TSNode.mk ty s e x n []) (self_mem_allNodes _) (by simp [TSNode.children])
    obtain ⟨cs, hcs⟩ := Option.isSome_iff_exists.mp (by simpa [TSNode.text] using hself)
    constructor
    · simp [node_to_dict, hcs]
    · intro d
      simp [print_tree, hcs]
  | cons c cs2 =>
    have hch : ∀ m ∈ c :: cs2,
        (node_to_dict m).isSome = true ∧ ∀ d, (print_tree m d).isSome = true :=
      fun m hm => ih m hm (fun a ha hl => hdec a (allNodes_sub hm ha) hl)
    constructor
    · obtain ⟨js, hjs⟩ := Option.isSome_iff_exists.mp
        (node_to_dict_list_isSome (l := c :: cs2) (fun m hm => (hch m hm).1))
      simp [node_to_dict, hjs]
    · intro d
      obtain ⟨ss, hss⟩ := Option.isSome_iff_exists.mp
        (print_tree_list_isSome (l := c :: cs2) (d := d + 1) (fun m hm => (hch m hm).2 (d + 1)))
      simp [print_tree, hss]

/-- C1, witness: the two-node fixture tree has valid-UTF-8 leaves, and both
conversions succeed on it. -/
theorem c1_decode_total_on_valid_utf8_witness :
    (node_to_dict wTree).isSome = true ∧ (print_tree wTree 0).isSome = true := by
  have h := c1_decode_total_on_valid_utf8 wTree (by decide)
  exact ⟨h.1, h.2 0⟩

/-- C2, counterexample: a childless non-terminal (a grammar-rule node with
`is_named` true and zero children, like the `module` node of an empty
source) is serialized with a `text` key and no `children` key — the code
branches on `child_count == 0` alone, so the claim's `children: []`
representation never happens. -/
theorem c2_childless_nonterminal_counterexample :
    childlessNamed.isNamed = true ∧ childlessNamed.children = []
    ∧ node_to_dict childlessNamed = some (Json.obj [("type", Json.str "block"),
        ("start", Json.arr [Json.num 1, Json.num 0]),
        ("end", Json.arr [Json.num 1, Json.num 0]), ("text", Json.str "")])
    ∧ ((node_to_dict childlessNamed).getD (Json.num 0)).objKeys
        = ["type", "start", "end", "text"] :=
  ⟨rfl, rfl, rfl, rfl⟩

/-- C2, amended: every record carries exactly one of `text` or `children`
(after `type`, `start`, `end`), but the split is by child count alone: a
node with zero children — non-terminal or not — gets `text`, and the
`children` key appears exactly for nodes with at least one child (so
`children: []` is never emitted). -/
theorem c2_exactly_one_key (n : TSNode) (j : Json) (h : node_to_dict n = some j) :
    (j.objKeys = ["type", "start", "end", "text"] ∧ n.children = [])
    ∨ (j.objKeys = ["type", "start", "end", "children"] ∧ n.children ≠ []) := by
  cases n with
  | mk ty s e x nm ch =>
    by_cases hch : ch.length = 0
    · left
      refine ⟨?_, ?_⟩
      · cases hdec : utf8DecodeStrict x with
        | none => simp [node_to_dict, hch, hdec] at h
        | some cs =>
          simp [node_to_dict, hch, hdec] at h
          simp [← h, Json.objKeys]
      · simpa [TSNode.children] using List.length_eq_zero.mp hch
    · right
      refine ⟨?_, ?_⟩
      · cases hcs : node_to_dict_list ch with
        | none => simp [node_to_dict, hch, hcs] at h
        | some js =>
          simp [node_to_dict, hch, hcs] at h
          simp [← h, Json.objKeys]
      · simp [TSNode.children]
        intro hnil
        exact hch (by simp [hnil])

/-- C2, witness: the fixture leaf record carries the `text` key. -/
theorem c2_exactly_one_key_witness :
    (Json.objKeys (Json.obj [("type", Json.str "identifier"),
        ("start", Json.arr [Json.num 0, Json.num 0]),
        ("end", Json.arr [Json.num 0, Json.num 1]), ("text", Json.str "a")])
      = ["type", "start", "end", "text"] ∧ wLeaf.children = [])
    ∨ (Json.objKeys (Json.obj [("type", Json.str "identifier"),
        ("start", Json.arr [Json.num 0, Json.num 0]),
        ("end", Json.arr [Json.num 0, Json.num 1]), ("text", Json.str "a")])
      = ["type", "start", "end", "children"] ∧ wLeaf.children ≠ []) :=
  c2_exactly_one_key wLeaf _ rfl

/-- C3, counterexample: for the empty source the root (a childless `module`
node) is serialized with keys `type`, `start`, `end`, `text` — there is no
`children` key at all, against the claim's `children: []`. -/
theorem c3_empty_source_counterexample :
    ((node_to_dict emptyParseRoot).getD (Json.num 0)).objKeys
      = ["type", "start", "end", "text"] := rfl

/-- C3, amended: for the empty source the pipeline raises no failure, and
the serialized root record has `start == end == (0,0)` and `text: ""` (the
root has zero children, so the serializer emits `text`, not
`children: []`). -/
theorem c3_empty_source_record :
    node_to_dict emptyParseRoot = some (Json.obj [("type", Json.str "module"),
      ("start", Json.arr [Json.num 0, Json.num 0]),
      ("end", Json.arr [Json.num 0, Json.num 0]), ("text", Json.str "")])
    ∧ (∀ fs : FS, (mainTail (fun _ => emptyParseRoot) "" fs).1 = MainResult.ok) :=
  ⟨rfl, fun _ => rfl⟩

/-- C5: the renderer returns exactly the spec's rendering — the lines of
`renderLinesSpec` (indentation two spaces per depth, leaf lines
`type: repr(text)`, a non-terminal's type line followed by its children's
lines at depth + 1 in source order) joined by newlines; there is one line
per node, and no line contains a raw newline (so the joined string really
has one text line per node), under the code's decode succeeding on every
leaf and the grammar's type names holding no newline.  As a Lean function
of the tree alone, the renderer is side-effect free by construction. -/
theorem c5_renderer_shape (t : TSNode)
    (hdec : ∀ n ∈ allNodes t, n.children.length = 0 →
      (utf8DecodeStrict n.text).isSome = true)
    (hty : ∀ n ∈ allNodes t, ∀ c ∈ n.type.data, c ≠ Char.ofNat 10) (d : Nat) :
    print_tree t d = some (joinNL (renderLinesSpec t d))
    ∧ (renderLinesSpec t d).length = (allNodes t).length
    ∧ ∀ l ∈ renderLinesSpec t d, ∀ c ∈ l.data, c ≠ Char.ofNat 10 :=
  ⟨print_tree_eq_spec t hdec d, renderLinesSpec_length t d, renderLinesSpec_noNL t hty d⟩

/-- C5, witness: on the two-node fixture tree the rendering is the two
expected lines joined by one newline. -/
theorem c5_renderer_shape_witness :
    (print_tree wTree 0 = some (joinNL (renderLinesSpec wTree 0))
      ∧ (renderLinesSpec wTree 0).length = (allNodes wTree).length
      ∧ ∀ l ∈ renderLinesSpec wTree 0, ∀ c ∈ l.data, c ≠ Char.ofNat 10)
    ∧ print_tree wTree 0 = some "module\n  identifier: 'a'" :=
  ⟨c5_renderer_shape wTree (by decide) (by decide) 0, rfl⟩

/-- C6: serialization is deterministic — two runs on the same source whose
parses produce field-by-field equal snapshots (the parser is a function of
its input) serialize to byte-identical JSON documents. -/
theorem c6_serialization_deterministic (code1 code2 : String) (r1 r2 : TSNode)
    (hsrc : code1 = code2) (heq : tsEquiv r1 r2) :
    pipelineJsonBytes code1 r1 = pipelineJsonBytes code2 r2 := by
  rw [hsrc, tsEquiv_eq r1 r2 heq]

/-- C6, witness: two independently constructed copies of the fixture tree
yield byte-identical serialized output. -/
theorem c6_serialization_deterministic_witness :
    pipelineJsonBytes "a" wTree = pipelineJsonBytes "a" wTree2 :=
  c6_serialization_deterministic "a" "a" wTree wTree2 rfl
    (by simp [tsEquiv, tsEquivList, wTree, wTree2, wLeaf, wLeaf2])

/-- C7, counterexample: the claim says no partial or truncated artifact is
left on a write failure; but `write_text` truncates then writes, so a
failure after one byte leaves the destination holding that one byte of the
new content — the pre-existing artifact (`[0x41]`) is gone and a partial
one (`[0x42]`) is in place (the failure itself does propagate). -/
theorem c7_partial_artifact_counterexample :
    wFsOut OUTPUT_FILE = some [0x41]
    ∧ (write_text_run wFsOut OUTPUT_FILE [0x42, 0x43] 1).1 = false
    ∧ (write_text_run wFsOut OUTPUT_FILE [0x42, 0x43] 1).2 OUTPUT_FILE = some [0x42] :=
  ⟨rfl, rfl, rfl⟩

/-- C7, amended: a write failure propagates to the caller (`main` installs
no handler), but the destination is left holding the prefix of the new
content written before the failure — a partial/truncated artifact, since
the plain truncate-then-write has no atomic write-then-rename step. -/
theorem c7_write_failure_propagates_partial (fs : FS) (path : String)
    (data : List Nat) (k : Nat) (h : k < data.length) :
    write_text_run fs path data k = (false, FS.set fs path (data.take k)) := by
  unfold write_text_run
  rw [if_neg (by omega)]

/-- C7, witness: a two-byte write failing after one byte. -/
theorem c7_write_failure_propagates_partial_witness :
    write_text_run wFsEmpty OUTPUT_FILE [0x42, 0x43] 1
      = (false, FS.set wFsEmpty OUTPUT_FILE [0x42]) := by
  have h := c7_write_failure_propagates_partial wFsEmpty OUTPUT_FILE [0x42, 0x43] 1 (by decide)
  simpa using h

/-- C8: a supplied input path that does not exist makes `main` exit with
status 1 before parsing (the result does not depend on the parser) and
leaves the whole filesystem — in particular any artifact at the output
path — untouched. -/
theorem c8_missing_input_no_artifact (parse : List Nat → TSNode) (argv : List String)
    (fs : FS) (p : String) (rest : List String) (hargv : argv = p :: rest)
    (hmiss : fs p = none) :
    mainRun parse argv fs = (MainResult.exitFail, fs) := by
  subst hargv
  simp [mainRun, hmiss]

/-- C8, witness: a missing path on an empty filesystem. -/
theorem c8_missing_input_no_artifact_witness :
    mainRun wParse ["absent.py"] wFsEmpty = (MainResult.exitFail, wFsEmpty) :=
  c8_missing_input_no_artifact wParse _ wFsEmpty "absent.py" [] rfl rfl

/-- C9: an input file whose bytes are not valid UTF-8 makes the strict
`read_text(encoding="utf-8")` raise before parsing begins (the result does
not depend on the parser), and no artifact is written — the filesystem is
unchanged. -/
theorem c9_strict_input_read_fails (parse : List Nat → TSNode) (fs : FS)
    (p : String) (rest : List String) (bytes : List Nat)
    (hread : fs p = some bytes) (hbad : utf8DecodeStrict bytes = none) :
    mainRun parse (p :: rest) fs = (MainResult.raised, fs) := by
  simp [mainRun, hread, hbad]

/-- C9, witness: a file holding the single byte `0xFF`. -/
theorem c9_strict_input_read_fails_witness :
    mainRun wParse ["bad.py"] wFsBad = (MainResult.raised, wFsBad) :=
  c9_strict_input_read_fails wParse wFsBad "bad.py" [] [0xFF] rfl rfl

/-- C10: once the problem list is readable (the file exists, pandas parses
it, and it has an `id` column), the extractor truncates the output JSONL
file before the first loop iteration: whatever the abort budget, the file
afterwards holds exactly the lines emitted so far — and with an immediate
abort (budget 0) it is empty, the pre-existing corpus erased; a completed
run that finds zero pairs leaves it empty as well. -/
theorem c10_output_truncated_on_open (readCsv : List Nat → Option Table)
    (dirs : String → Bool) (fs : FS) (bytes : List Nat) (tbl : Table)
    (h1 : fs PROBLEM_LIST_CSV = some bytes) (h2 : readCsv bytes = some tbl)
    (h3 : tbl.cols.contains "id" = true) :
    (∀ budget, (codenetMain readCsv dirs fs budget).2 CN_OUTPUT_FILE
      = some (encodeUtf8 (String.join (codenetLoop readCsv dirs fs
          (tbl.rows.filterMap (fun r => r.get "id")) budget).1)))
    ∧ (codenetMain readCsv dirs fs 0).2 CN_OUTPUT_FILE = some [] := by
  have h3' : "id" ∈ tbl.cols := by simpa using h3
  constructor
  · intro budget
    simp [codenetMain, h1, h2, h3', FS.set]
  · simp [codenetMain, h1, h2, h3', FS.set, codenetLoop_budget_zero, encodeUtf8]

/-- C10, witness: a readable one-problem list over a filesystem holding a
pre-existing corpus; both an immediate abort and a completed zero-pair run
leave the output file empty. -/
theorem c10_output_truncated_on_open_witness :
    wFsCodenet CN_OUTPUT_FILE = some [0x4F, 0x4C, 0x44]
    ∧ (codenetMain wReadCsv wDirs wFsCodenet 0).2 CN_OUTPUT_FILE = some []
    ∧ (codenetMain wReadCsv wDirs wFsCodenet 5).2 CN_OUTPUT_FILE = some [] := by
  refine ⟨rfl, ?_, ?_⟩
  · exact (c10_output_truncated_on_open wReadCsv wDirs wFsCodenet _ _ rfl rfl rfl).2
  · have h := (c10_output_truncated_on_open wReadCsv wDirs wFsCodenet _ _ rfl rfl rfl).1 5
    rw [h]
    rfl
